import Mathlib

/-!
Verification of the Papyri harvesting scripts.

This file gives a shallow embedding of the four Python source files of the
repository and proves properties of the embedded definitions:

* scrape_trismegistos_geojson.py — the Direct strategy: is_json_response,
  fetch_one (with its inner try_url closure), save_json, iter_ids and the
  counter loop of main.
* scrapping/8.py and scrapping/scrapapyrus.py — the Sectioned strategy:
  get_text_clean, extract_field, extract_greek_text and the per-record
  pipelines scrape_trismegistos_ultimate / scrape_trismegistos_complete_v6.

Machine-level concerns (real sleeping, the Selenium driver, the HTTP socket)
are modelled as environments: a function giving, for each request the code
can make, the response the outside world produces.  Python dicts are
modelled as insertion-ordered association lists, Python strings as Lean
strings (lists of characters).
-/

namespace Papyri

/-! ## Python string primitives

The scripts rely on str.strip, str.strip(chars), str.replace(old, new, 1),
the substring test (x in y), str.split(sep) and str.join.  These are
re-built here on lists of characters so that every later definition is
executable and provable by induction.
-/

/-- Characters stripped by Python str.strip() with no argument: the Unicode
White_Space set (CPython: Py_UNICODE_ISSPACE). -/
def pyIsSpace (c : Char) : Bool :=
  c == ' ' || c == '\t' || c == '\n' || c == '\u000b' || c == '\u000c' ||
  c == '\r' || c == '\u001c' || c == '\u001d' || c == '\u001e' ||
  c == '\u001f' || c == '\u0085' || c == ' ' || c == ' ' ||
  (' ' ≤ c && c ≤ ' ') ||
  c == ' ' || c == ' ' || c == ' ' || c == ' ' ||
  c == '　'

/-- Python str.strip() on a list of characters: drop leading and trailing
whitespace. -/
def pyStripL (l : List Char) : List Char :=
  (l.dropWhile pyIsSpace).rdropWhile pyIsSpace

/-- Python str.strip() on a string. -/
def pyStrip (s : String) : String := ⟨pyStripL s.data⟩

/-- The separator characters stripped by strip(" : ") in
get_text_clean: space, colon and the non-breaking space. -/
def isSepChar (c : Char) : Bool :=
  c == ' ' || c == ':' || c == ' '

/-- Python str.strip(" : ") on a list of characters. -/
def stripSepL (l : List Char) : List Char :=
  (l.dropWhile isSepChar).rdropWhile isSepChar

/-- Python str.strip(" : ") on a string. -/
def stripSep (s : String) : String := ⟨stripSepL s.data⟩

/-- Python substring membership needle in hay, on lists of characters. -/
def strHasL (hay needle : List Char) : Bool :=
  match hay with
  | [] => needle.isEmpty
  | _ :: t => needle.isPrefixOf hay || strHasL t needle

/-- Python substring membership needle in hay, on strings. -/
def strHas (hay needle : String) : Bool := strHasL hay.data needle.data

/-- Helper for removeFirstL, assuming the pattern is nonempty. -/
def removeFirstAux (old : List Char) : List Char → List Char
  | [] => []
  | c :: s =>
    if old.isPrefixOf (c :: s) then (c :: s).drop old.length
    else c :: removeFirstAux old s

/-- Python s.replace(old, "", 1): delete the first occurrence of old in s
(the identity when old is empty, as in Python). -/
def removeFirstL (old s : List Char) : List Char :=
  if old.isEmpty then s else removeFirstAux old s

/-- Python s.replace(old, "", 1) on strings. -/
def removeFirst (s old : String) : String := ⟨removeFirstL old.data s.data⟩

/-- Python s.split(c) for a one-character separator. -/
def splitOnCharL (c : Char) : List Char → List (List Char)
  | [] => [[]]
  | x :: xs =>
    match splitOnCharL c xs with
    | [] => [[]]
    | h :: t => if x = c then [] :: h :: t else (x :: h) :: t

/-- Python sep.join(parts) on lists of characters. -/
def joinSepL (sep : List Char) : List (List Char) → List Char
  | [] => []
  | x :: t =>
    match t with
    | [] => x
    | _ :: _ => x ++ sep ++ joinSepL sep t

/-! ## JSON values and HTTP responses (Direct strategy)

The GeoResponder endpoint answers each GET with a status code, a
Content-Type header and a body.  The body is modelled together with the
outcome of resp.json(): parsed is none exactly when json parsing raises
JSONDecodeError.  A transport-level failure of session.get (timeout,
connection error) is the exn constructor; it raises
requests.RequestException through fetch_one into main. -/

inductive JVal where
  | obj (fields : List (String × JVal))
  | arr (elems : List JVal)
  | str (s : String)
  | num (n : Int)
  | bool (b : Bool)
  | null

/-- Python isinstance(data, dict). -/
def JVal.isDict : JVal → Bool
  | .obj _ => true
  | _ => false

/-- Python k in data for a parsed JSON value (False on non-dicts). -/
def JVal.hasKey (v : JVal) (k : String) : Bool :=
  match v with
  | .obj fs => fs.any (fun p => p.1 == k)
  | _ => false

/-- Python falsiness of a parsed JSON dict: not data is True exactly when
the dict has no entries (only ever asked on dicts in the source). -/
def JVal.isEmptyDict : JVal → Bool
  | .obj fs => fs.isEmpty
  | _ => false

/-- One HTTP exchange as seen by the script: either the transport raises,
or a response with status code, Content-Type, body text and the result of
attempting to parse the body as JSON. -/
inductive HResp where
  | exn
  | resp (status : Nat) (contentType : String) (body : String)
      (parsed : Option JVal)

/-- Environment of the two URLs fetch_one can request for a given id: the
argument tells whether the dl=1 flag was set. -/
def FetchEnv := Bool → HResp

/-- is_json_response (scrape_trismegistos_geojson.py, lines 82-84): the
lower-cased Content-Type contains application/json, or the stripped body
starts with an opening brace. -/
def is_json_response (contentType body : String) : Bool :=
  strHasL (contentType.data.map Char.toLower) "application/json".data ||
  ("\x7b".data).isPrefixOf (pyStripL body.data)

/-- The guard of line 115 of scrape_trismegistos_geojson.py:
isinstance(data, dict) and any(k in data for k in ("error", "message"))
and not data. -/
def errorDictGuard (data : JVal) : Bool :=
  data.isDict && (data.hasKey "error" || data.hasKey "message") &&
    data.isEmptyDict

/-- The inner try_url closure of fetch_one (lines 98-118).  Except Unit
models an uncaught requests.RequestException; Option models the
None-vs-data return. -/
def try_url (env : FetchEnv) (withDl : Bool) : Except Unit (Option JVal) :=
  match env withDl with
  | .exn => .error ()
  | .resp status contentType body parsed =>
    if status ≠ 200 then .ok none
    else if ¬ is_json_response contentType body then .ok none
    else
      match parsed with
      | none => .ok none
      | some data =>
        if errorDictGuard data then .ok none else .ok (some data)

/-- The three access modes of the --method option. -/
inductive Mode where
  | auto
  | download
  | view
deriving DecidableEq

/-- fetch_one (lines 87-129): dispatch on the method, with the auto mode
trying dl=1 first and falling back to the plain view. -/
def fetch_one (env : FetchEnv) (method : Mode) : Except Unit (Option JVal) :=
  match method with
  | .download => try_url env true
  | .view => try_url env false
  | .auto =>
    match try_url env true with
    | .error e => .error e
    | .ok (some data) => .ok (some data)
    | .ok none => try_url env false

/-! ## Identifier ranges -/

/-- Ascending n-element run of consecutive integers starting at s, the
meaning of Python range(s, s+n, 1). -/
def rangeAsc (s : Int) : Nat → List Int
  | 0 => []
  | n + 1 => s :: rangeAsc (s + 1) n

/-- Descending n-element run of consecutive integers starting at s, the
meaning of Python range(s, s-n, -1). -/
def rangeDesc (s : Int) : Nat → List Int
  | 0 => []
  | n + 1 => s :: rangeDesc (s - 1) n

/-- iter_ids (scrape_trismegistos_geojson.py, lines 143-146):
step = 1 if end >= start else -1, then range(start, end + step, step),
which visits both bounds inclusively. -/
def iter_ids (s e : Int) : List Int :=
  if e ≥ s then rangeAsc s ((e - s).toNat + 1)
  else rangeDesc s ((s - e).toNat + 1)

/-- Python range(s, stop) with the implicit step 1, as used by the
Sectioned drivers: range(start_index, end_index + 1) in 8.py line 118 and
scrapapyrus.py line 194.  Empty when stop ≤ s. -/
def pyRange (s stop : Int) : List Int := rangeAsc s (stop - s).toNat

/-- The id sequence visited by the Sectioned drivers for bounds
(start_index, end_index): range(start_index, end_index + 1). -/
def sectionedIds (s e : Int) : List Int := pyRange s (e + 1)

/-! ## Atomic persistence (save_json) -/

/-- A file system: each path either holds a file with some content or
nothing.  Directories are left implicit; outdir.mkdir only affects them. -/
def FS := String → Option String

/-- Writing a file at a path (open("w") followed by a complete dump). -/
def fsWrite (fs : FS) (p c : String) : FS :=
  fun q => if q = p then some c else fs q

/-- os.replace / Path.replace semantics: atomically rename src onto dst,
overwriting dst; the identity when src does not exist. -/
def fsRename (fs : FS) (src dst : String) : FS :=
  match fs src with
  | none => fs
  | some c => fun q =>
      if q = dst then some c else if q = src then none else fs q

/-- The temporary sibling path of save_json (line 136):
outdir / f".id_N.json.part". -/
def tmpName (outdir : String) (idStr : String) : String :=
  outdir ++ "/" ++ ".id_" ++ idStr ++ ".json.part"

/-- The canonical output path (line 134): outdir / f"id_N.json". -/
def canonName (outdir : String) (idStr : String) : String :=
  outdir ++ "/" ++ "id_" ++ idStr ++ ".json"

/-- save_json (lines 132-140) as its effect on the file system: write the
serialized record to the temporary sibling path, then rename the
temporary onto the canonical path.  ser is the output of json.dump. -/
def save_json (fs : FS) (outdir idStr ser : String) : FS :=
  fsRename (fsWrite fs (tmpName outdir idStr) ser)
    (tmpName outdir idStr) (canonName outdir idStr)

/-! ## The Direct-strategy orchestrator loop (main, lines 173-204) -/

/-- The four run counters of main. -/
structure Counters where
  ok : Nat
  missing : Nat
  skipped : Nat
  failed : Nat
deriving DecidableEq

/-- Sum of the four counters. -/
def Counters.total (c : Counters) : Nat :=
  c.ok + c.missing + c.skipped + c.failed

/-- Everything the loop body of main consults for a given id: the resume
flag, whether the canonical output file already exists, the per-id fetch
environment and the chosen method. -/
structure RunCfg where
  resume : Bool
  fileExists : Int → Bool
  env : Int → FetchEnv
  method : Mode

/-- One iteration of the for-loop of main (lines 179-202): skip when
resuming over an existing file, count a raised RequestException as
failed, a None result as missing, and a saved record as ok. -/
def stepMain (cfg : RunCfg) (c : Counters) (id : Int) : Counters :=
  if cfg.resume && cfg.fileExists id then
    { c with skipped := c.skipped + 1 }
  else
    match fetch_one (cfg.env id) cfg.method with
    | .error _ => { c with failed := c.failed + 1 }
    | .ok none => { c with missing := c.missing + 1 }
    | .ok (some _) => { c with ok := c.ok + 1 }

/-- The whole counting run of main over the inclusive id range. -/
def runMain (cfg : RunCfg) (s e : Int) : Counters :=
  (iter_ids s e).foldl (stepMain cfg) ⟨0, 0, 0, 0⟩

/-! ## Parsed documents (Sectioned strategy)

BeautifulSoup documents are modelled as trees of elements and text nodes.
An element carries its tag name, its class list and an optional id
attribute; all other attributes are unused by the scripts. -/

inductive HNode where
  | text (s : String)
  | elem (tag : String) (classes : List String) (idAttr : Option String)
      (kids : List HNode)

mutual

/-- The raw strings of a node in document order (the text descendants). -/
def rawTexts : HNode → List (List Char)
  | .text s => [s.data]
  | .elem _ _ _ ks => rawTextsList ks

/-- rawTexts over a list of siblings. -/
def rawTextsList : List HNode → List (List Char)
  | [] => []
  | k :: ks => rawTexts k ++ rawTextsList ks

end

mutual

/-- All descendant nodes of a node, itself excluded, in document
(pre-)order; BS4 find/find_all/select search exactly these. -/
def descendants : HNode → List HNode
  | .text _ => []
  | .elem _ _ _ ks => descendantsList ks

/-- Descendants of a sibling list: each sibling followed by its own
descendants. -/
def descendantsList : List HNode → List HNode
  | [] => []
  | k :: ks => k :: descendants k ++ descendantsList ks

end

mutual

/-- Removing (decompose) every descendant element that satisfies p,
subtree included; the root itself is kept, matching select on a copy. -/
def removeIf (p : HNode → Bool) : HNode → HNode
  | .text s => .text s
  | .elem t c i ks => .elem t c i (removeIfList p ks)

/-- removeIf over a sibling list. -/
def removeIfList (p : HNode → Bool) : List HNode → List HNode
  | [] => []
  | k :: ks =>
    if p k then removeIfList p ks
    else removeIf p k :: removeIfList p ks

end

mutual

/-- The br.replace_with of the scripts: every br element becomes the text
node of a single newline. -/
def brToNl : HNode → HNode
  | .text s => .text s
  | .elem t c i ks =>
    if t = "br" then .text "\n" else .elem t c i (brToNlList ks)

/-- brToNl over a sibling list. -/
def brToNlList : List HNode → List HNode
  | [] => []
  | k :: ks => brToNl k :: brToNlList ks

end

/-- Class membership test of an element. -/
def hasClass (n : HNode) (c : String) : Bool :=
  match n with
  | .text _ => false
  | .elem _ cs _ _ => cs.contains c

/-- Tag name test of an element. -/
def isTagOf (n : HNode) (t : String) : Bool :=
  match n with
  | .text _ => false
  | .elem tg _ _ _ => tg == t

/-- The id attribute of an element. -/
def idOf : HNode → Option String
  | .text _ => none
  | .elem _ _ i _ => i

/-- Concatenation of character lists. -/
def flatL (ls : List (List Char)) : List Char :=
  ls.foldr (fun a b => a ++ b) []

/-- BS4 get_text() with no arguments: the raw concatenation of all text
descendants. -/
def getTextRaw (n : HNode) : List Char := flatL (rawTexts n)

/-- BS4 get_text(sep, strip=True): strip each string, skip the ones that
strip to nothing and join the rest with sep. -/
def getTextSepStrip (sep : List Char) (n : HNode) : List Char :=
  joinSepL sep (((rawTexts n).map pyStripL).filter (fun l => !l.isEmpty))

/-- BS4 get_text(strip=True): the same with the empty separator. -/
def getTextStripAll (n : HNode) : List Char := getTextSepStrip [] n

/-- BS4 find with a predicate: the first matching descendant. -/
def findFirst (p : HNode → Bool) (n : HNode) : Option HNode :=
  (descendants n).find? p

/-- BS4 select over class selectors: every descendant element carrying at
least one of the given classes, in document order. -/
def selectClasses (cs : List String) (n : HNode) : List HNode :=
  (descendants n).filter (fun k => cs.any (fun c => hasClass k c))

/-- get_text_clean (scrapapyrus.py lines 13-31, 8.py lines 13-22): on a
present element, drop the .tooltiptext descendants, take
get_text(" ", strip=True), delete the first occurrence of the label,
strip " : " separators, and turn an empty result into None. -/
def get_text_clean (el : Option HNode) (label : String) : Option String :=
  match el with
  | none => none
  | some e =>
    let cleaned := removeIf (fun k => hasClass k "tooltiptext") e
    let fullText := getTextSepStrip [' '] cleaned
    let cleanText := stripSepL (removeFirstL label.data fullText)
    if cleanText.isEmpty then none else some ⟨cleanText⟩

/-- The predicate of Strategy A of extract_field: a span element of class
semibold. -/
def isSemiboldSpan (k : HNode) : Bool :=
  isTagOf k "span" && hasClass k "semibold"

/-- The lambda of Strategy B of extract_field: a p, div or li tag whose
get_text() contains the label followed by a colon. -/
def isLabelColonTag (labelColon : String) (k : HNode) : Bool :=
  (isTagOf k "p" || isTagOf k "div" || isTagOf k "li") &&
    strHasL (getTextRaw k) labelColon.data

/-- extract_field (scrapapyrus.py lines 35-54, 8.py lines 24-41).
Strategy A: the first .division or .row block whose semibold span text
contains the label is cleaned with the span text as the label to remove.
Strategy B: otherwise, the first p/div/li whose text contains
"label:"; a hyperlink inside it that does not restate the label wins,
else the block is cleaned with "label:" removed. -/
def extract_field (soup : HNode) (label : String) : Option String :=
  match (selectClasses ["division", "row"] soup).find? (fun b =>
      match findFirst isSemiboldSpan b with
      | some sp => strHasL (getTextRaw sp) label.data
      | none => false) with
  | some b =>
    match findFirst isSemiboldSpan b with
    | some sp => get_text_clean (some b) ⟨getTextStripAll sp⟩
    | none => none
  | none =>
    match findFirst (isLabelColonTag (label ++ ":")) soup with
    | some target =>
      match findFirst (fun k => isTagOf k "a") target with
      | some link =>
        if ¬ strHasL (getTextRaw link) label.data then
          some ⟨getTextStripAll link⟩
        else get_text_clean (some target) (label ++ ":")
      | none => get_text_clean (some target) (label ++ ":")
    | none => none

/-- extract_greek_text (scrapapyrus.py lines 69-83, 8.py lines 57-68):
locate id words-full-text (None when absent), drop the span.tooltiptext
descendants, turn br elements into newlines, take the raw text, strip
every line and keep the nonempty ones joined by newlines. -/
def extract_greek_text (soup : HNode) : Option String :=
  match findFirst (fun k => idOf k == some "words-full-text") soup with
  | none => none
  | some contentDiv =>
    let noTooltips :=
      removeIf (fun k => isTagOf k "span" && hasClass k "tooltiptext")
        contentDiv
    let withNl := brToNl noTooltips
    let lines := (splitOnCharL '\n' (getTextRaw withNl)).map pyStripL
    some ⟨joinSepL ['\n'] (lines.filter (fun l => !l.isEmpty))⟩

/-! ## Sectioned-strategy records

The item_data dictionaries of 8.py and scrapapyrus.py are modelled as
insertion-ordered association lists: assigning an existing key updates it
in place, a new key is appended, exactly as for a Python dict. -/

inductive PVal where
  | str (x : String)
  | int (x : Int)
  | strs (xs : List String)
  | null
deriving DecidableEq

/-- Python value of an Optional[str] extraction result. -/
def optV : Option String → PVal
  | Option.none => .null
  | Option.some s => .str s

/-- Python dict assignment d[k] = v on an association list: a present key
keeps its position and gets the new value, a new key is appended. -/
def dsetG {α : Type} : List (String × α) → String → α → List (String × α)
  | [], k, v => [(k, v)]
  | (a, w) :: t, k, v =>
    if k = a then (k, v) :: t else (a, w) :: dsetG t k v

/-- Association-list lookup with string keys. -/
def lookupA {α : Type} : List (String × α) → String → Option α
  | [], _ => none
  | (a, w) :: t, k => if k = a then some w else lookupA t k

/-- A record dictionary. -/
def PDict := List (String × PVal)

/-- Python dict lookup d[k] as an Option. -/
def lookupD (d : PDict) (k : String) : Option PVal := lookupA d k

/-- The base URL of the text pages. -/
def textUrl (i : Int) : String :=
  "https://www.trismegistos.org/text/" ++ toString i

/-- The extraction results the environment supplies for one record of
8.py: what each extractor call of the try block would return. -/
structure Env8 where
  language : Option String
  content : Option String
  date : Option String
  provenance : Option String
  material : Option String
  publications : List String
  greekText : Option String
  people : List String

/-- The initial item_data of 8.py (lines 124-136). -/
def init8 (i : Int) : PDict :=
  [("id", .int i), ("url", .str (textUrl i)),
   ("Language", .null), ("Content", .null), ("Date", .null),
   ("Provenance", .null), ("Material", .null),
   ("Publications", .strs []), ("GreekText", .null),
   ("People", .strs []), ("Status", .str "OK")]

/-- The assignment steps of the try block of 8.py (lines 150-170), in
source order. -/
def steps8 (env : Env8) : List (PDict → PDict) :=
  [fun d => dsetG d "Language" (optV env.language),
   fun d => dsetG d "Content" (optV env.content),
   fun d => dsetG d "Date" (optV env.date),
   fun d => dsetG d "Provenance" (optV env.provenance),
   fun d => dsetG d "Material" (optV env.material),
   fun d => dsetG d "Publications" (.strs env.publications),
   fun d => dsetG d "GreekText" (optV env.greekText),
   fun d => dsetG d "People" (.strs env.people)]

/-- How one record's section sequence ends: the page carried a
not-found marker, every step ran, or an exception interrupted the
sequence after k completed assignment steps with message msg. -/
inductive RecOutcome where
  | notFound
  | success
  | errorAt (k : Nat) (msg : String)

/-- Run a list of assignment steps over a record in order. -/
def applyPipeline (fs : List (PDict → PDict)) (d : PDict) : PDict :=
  fs.foldl (fun d f => f d) d

/-- One record of scrape_trismegistos_ultimate (8.py lines 118-182): the
not-found marker sets Status, an exception is caught at the record
boundary and sets Status to Error with str(e) under the new Error key,
leaving every other key as the completed steps left it. -/
def record_ultimate (i : Int) (env : Env8) (out : RecOutcome) : PDict :=
  let d0 := init8 i
  match out with
  | .notFound => dsetG d0 "Status" (.str "Not Found")
  | .success => applyPipeline (steps8 env) d0
  | .errorAt k msg =>
    let d := applyPipeline ((steps8 env).take k) d0
    dsetG (dsetG d "Status" (.str "Error")) "Error" (.str msg)

/-- The extraction results the environment supplies for one record of
scrapapyrus.py. -/
structure EnvV6 where
  language : Option String
  content : Option String
  date : Option String
  provenance : Option String
  material : Option String
  publications : List String
  collections : List String
  archive : List String
  greekText : Option String
  people : List String
  places : List String
  irregularities : List String

/-- The initial item_data of scrapapyrus.py (lines 203-218). -/
def initV6 (i : Int) : PDict :=
  [("id", .int i), ("url", .str (textUrl i)),
   ("Language", .null), ("Content", .null), ("Date", .null),
   ("Provenance", .null), ("Material", .null),
   ("Archive", .strs []), ("Collections", .strs []),
   ("Publications", .strs []), ("GreekText", .null),
   ("People", .strs []), ("Places", .strs []),
   ("Irregularities", .strs [])]

/-- The assignment steps of the try block of scrapapyrus.py
(lines 231-259), in source order. -/
def stepsV6 (env : EnvV6) : List (PDict → PDict) :=
  [fun d => dsetG d "Language" (optV env.language),
   fun d => dsetG d "Content" (optV env.content),
   fun d => dsetG d "Date" (optV env.date),
   fun d => dsetG d "Provenance" (optV env.provenance),
   fun d => dsetG d "Material" (optV env.material),
   fun d => dsetG d "Publications" (.strs env.publications),
   fun d => dsetG d "Collections" (.strs env.collections),
   fun d => dsetG d "Archive" (.strs env.archive),
   fun d => dsetG d "GreekText" (optV env.greekText),
   fun d => dsetG d "People" (.strs env.people),
   fun d => dsetG d "Places" (.strs env.places),
   fun d => dsetG d "Irregularities" (.strs env.irregularities)]

/-- One record of scrape_trismegistos_complete_v6 (scrapapyrus.py lines
194-269): the not-found branch and the exception handler leave the
record exactly as accumulated — the handler only prints, so no status or
diagnostic key is ever written. -/
def record_complete_v6 (i : Int) (env : EnvV6) (out : RecOutcome) : PDict :=
  let d0 := initV6 i
  match out with
  | .notFound => d0
  | .success => applyPipeline (stepsV6 env) d0
  | .errorAt k _ => applyPipeline ((stepsV6 env).take k) d0

/-- The results dict built by the loop of 8.py: one entry per visited id,
keyed by str(i).  Each iteration assigns a fresh key (the ids of the
range are distinct), so the dict is the ordered list of per-id pairs. -/
def scrape_trismegistos_ultimate (s e : Int) (env : Int → Env8)
    (out : Int → RecOutcome) : List (String × PDict) :=
  (pyRange s (e + 1)).map
    (fun i => (toString i, record_ultimate i (env i) (out i)))

/-- The results dict built by the loop of scrapapyrus.py. -/
def scrape_trismegistos_complete_v6 (s e : Int) (env : Int → EnvV6)
    (out : Int → RecOutcome) : List (String × PDict) :=
  (pyRange s (e + 1)).map
    (fun i => (toString i, record_complete_v6 i (env i) (out i)))

/-! ## Range lemmas -/

lemma mem_rangeAsc : ∀ (n : Nat) (s i : Int), i ∈ rangeAsc s n ↔ s ≤ i ∧ i < s + n := by
  intro n
  induction n with
  | zero => intro s i; simp [rangeAsc]
  | succ n ih => intro s i; simp only [rangeAsc, List.mem_cons, ih]; omega

lemma mem_rangeDesc : ∀ (n : Nat) (s i : Int), i ∈ rangeDesc s n ↔ s - n < i ∧ i ≤ s := by
  intro n
  induction n with
  | zero => intro s i; simp [rangeDesc]
  | succ n ih => intro s i; simp only [rangeDesc, List.mem_cons, ih]; omega

lemma length_rangeAsc : ∀ (n : Nat) (s : Int), (rangeAsc s n).length = n := by
  intro n
  induction n with
  | zero => intro s; rfl
  | succ n ih => intro s; simp [rangeAsc, ih]

lemma length_rangeDesc : ∀ (n : Nat) (s : Int), (rangeDesc s n).length = n := by
  intro n
  induction n with
  | zero => intro s; rfl
  | succ n ih => intro s; simp [rangeDesc, ih]

lemma nodup_rangeAsc : ∀ (n : Nat) (s : Int), (rangeAsc s n).Nodup := by
  intro n
  induction n with
  | zero => intro s; simp [rangeAsc]
  | succ n ih =>
    intro s
    rw [rangeAsc, List.nodup_cons]
    refine ⟨fun hmem => ?_, ih (s + 1)⟩
    rw [mem_rangeAsc] at hmem
    omega

lemma nodup_rangeDesc : ∀ (n : Nat) (s : Int), (rangeDesc s n).Nodup := by
  intro n
  induction n with
  | zero => intro s; simp [rangeDesc]
  | succ n ih =>
    intro s
    rw [rangeDesc, List.nodup_cons]
    refine ⟨fun hmem => ?_, ih (s - 1)⟩
    rw [mem_rangeDesc] at hmem
    omega

lemma chain_rangeAsc : ∀ (n : Nat) (s : Int),
    List.Chain' (fun a b : Int => b = a + 1) (rangeAsc s n) := by
  intro n
  induction n with
  | zero => intro s; simp [rangeAsc]
  | succ n ih =>
    intro s
    rw [rangeAsc, List.chain'_cons']
    refine ⟨?_, ih (s + 1)⟩
    intro y hy
    cases n with
    | zero => simp [rangeAsc] at hy
    | succ m => rw [rangeAsc] at hy; simp at hy; omega

lemma chain_rangeDesc : ∀ (n : Nat) (s : Int),
    List.Chain' (fun a b : Int => b = a - 1) (rangeDesc s n) := by
  intro n
  induction n with
  | zero => intro s; simp [rangeDesc]
  | succ n ih =>
    intro s
    rw [rangeDesc, List.chain'_cons']
    refine ⟨?_, ih (s - 1)⟩
    intro y hy
    cases n with
    | zero => simp [rangeDesc] at hy
    | succ m => rw [rangeDesc] at hy; simp at hy; omega

/-! ## Counter lemmas -/

lemma stepMain_total (cfg : RunCfg) (c : Counters) (id : Int) :
    (stepMain cfg c id).total = c.total + 1 := by
  unfold stepMain
  split
  · simp [Counters.total]; omega
  · split <;> (simp [Counters.total]; omega)

lemma foldl_stepMain_total (cfg : RunCfg) :
    ∀ (l : List Int) (c : Counters),
      (l.foldl (stepMain cfg) c).total = c.total + l.length := by
  intro l
  induction l with
  | nil => intro c; simp
  | cons x t ih =>
    intro c
    rw [List.foldl_cons, ih, stepMain_total]
    simp; omega

/-- The guard of line 115 can never hold: it demands a dict that both
contains an error or message key and is empty, and an empty dict contains
no key at all. -/
lemma errorDictGuard_eq_false (d : JVal) : errorDictGuard d = false := by
  cases d with
  | obj fs =>
    cases fs with
    | nil => rfl
    | cons p t =>
      simp [errorDictGuard, JVal.isDict, JVal.hasKey, JVal.isEmptyDict]
  | arr a => rfl
  | str s => rfl
  | num n => rfl
  | bool b => rfl
  | null => rfl

/-- A 200 response whose body is the empty JSON object. -/
def envEmptyObj : FetchEnv :=
  fun _ => .resp 200 "application/json" "\x7b\x7d" (Option.some (JVal.obj []))

/-- C1: the claim says a 200 response parsing to an empty JSON object is
treated as no record (null).  Evaluating the embedded fetch_one at exactly
that input shows the empty object is returned unchanged instead: the guard
of line 115 conjoins "has an error or message key" with "is empty", which
no dict can satisfy, so the guard is dead code and the empty-object case
falls through. -/
theorem fetch_one_returns_empty_object_unchanged :
    fetch_one envEmptyObj .auto = .ok (Option.some (JVal.obj [])) ∧
    (∀ d : JVal, errorDictGuard d = false) :=
  ⟨rfl, errorDictGuard_eq_false⟩

/-- C2: in the Direct orchestrator loop, every processed id increments
exactly one of the four counters, and over the whole inclusive range the
counters sum to the number of visited ids, which is |end - start| + 1. -/
theorem direct_counters_partition :
    (∀ (cfg : RunCfg) (c : Counters) (id : Int),
        stepMain cfg c id = { c with skipped := c.skipped + 1 } ∨
        stepMain cfg c id = { c with failed := c.failed + 1 } ∨
        stepMain cfg c id = { c with missing := c.missing + 1 } ∨
        stepMain cfg c id = { c with ok := c.ok + 1 }) ∧
    (∀ (cfg : RunCfg) (s e : Int),
        (runMain cfg s e).total = (iter_ids s e).length ∧
        (iter_ids s e).length = (e - s).toNat + (s - e).toNat + 1) := by
  constructor
  · intro cfg c id
    unfold stepMain
    split
    · exact Or.inl rfl
    · split
      · exact Or.inr (Or.inl rfl)
      · exact Or.inr (Or.inr (Or.inl rfl))
      · exact Or.inr (Or.inr (Or.inr rfl))
  · intro cfg s e
    have hlen : (iter_ids s e).length = (e - s).toNat + (s - e).toNat + 1 := by
      unfold iter_ids
      split
      · rw [length_rangeAsc]; omega
      · rw [length_rangeDesc]; omega
    refine ⟨?_, hlen⟩
    rw [runMain, foldl_stepMain_total]
    simp [Counters.total]

/-- C5 counterexample: with both endpoints answering HTTP 404 (a non-200
status), the run counts the id as missing, not failed — the claim that a
non-200 status increments the failed counter is false on the code. -/
def cfg404 : RunCfg :=
  { resume := false
    fileExists := fun _ => false
    env := fun _ => (fun _ => .resp 404 "text/html" "Not Found" Option.none)
    method := .auto }

/-- C5 counterexample theorem: a single-id run whose only response is an
HTTP 404 ends with failed = 0 and missing = 1. -/
theorem non200_counted_missing_not_failed :
    (runMain cfg404 1 1).failed = 0 ∧ (runMain cfg404 1 1).missing = 1 ∧
    (runMain cfg404 1 1).ok = 0 ∧ (runMain cfg404 1 1).skipped = 0 :=
  ⟨rfl, rfl, rfl, rfl⟩

/-- C5 amended: a transport-level exception raised by session.get
increments exactly the failed counter; a non-200 HTTP status makes
try_url return None, and a None fetch result increments exactly the
missing counter. -/
theorem transport_vs_status_counting :
    (∀ (cfg : RunCfg) (c : Counters) (id : Int),
        (cfg.resume && cfg.fileExists id) = false →
        fetch_one (cfg.env id) cfg.method = .error () →
        stepMain cfg c id = { c with failed := c.failed + 1 }) ∧
    (∀ (env : FetchEnv) (dl : Bool) (st : Nat) (ct body : String)
        (p : Option JVal),
        env dl = .resp st ct body p → st ≠ 200 →
        try_url env dl = .ok Option.none) ∧
    (∀ (cfg : RunCfg) (c : Counters) (id : Int),
        (cfg.resume && cfg.fileExists id) = false →
        fetch_one (cfg.env id) cfg.method = .ok Option.none →
        stepMain cfg c id = { c with missing := c.missing + 1 }) := by
  refine ⟨?_, ?_, ?_⟩
  · intro cfg c id hre hf
    simp [stepMain, hre, hf]
  · intro env dl st ct body p henv hst
    unfold try_url
    rw [henv]
    simp [hst]
  · intro cfg c id hre hf
    simp [stepMain, hre, hf]

/-- A fetch environment whose every request raises a transport
exception. -/
def cfgExn : RunCfg :=
  { resume := false
    fileExists := fun _ => false
    env := fun _ => (fun _ => .exn)
    method := .auto }

/-- C5 witness: the amended statement applied at concrete inputs — an
exception-raising id bumps failed, a 404 id bumps missing. -/
theorem transport_vs_status_counting_witness :
    stepMain cfgExn ⟨0, 0, 0, 0⟩ 7 = ⟨0, 0, 0, 1⟩ ∧
    try_url (fun _ => .resp 404 "text/html" "Not Found" Option.none) true =
      .ok Option.none ∧
    stepMain cfg404 ⟨0, 0, 0, 0⟩ 7 = ⟨0, 1, 0, 0⟩ := by
  refine ⟨?_, ?_, ?_⟩
  · exact transport_vs_status_counting.1 cfgExn ⟨0, 0, 0, 0⟩ 7 rfl rfl
  · exact transport_vs_status_counting.2.1 _ true 404 "text/html" "Not Found"
      Option.none rfl (by decide)
  · exact transport_vs_status_counting.2.2 cfg404 ⟨0, 0, 0, 0⟩ 7 rfl rfl

/-- C6: in auto mode fetch_one returns the dl=1 result when it is
non-null and otherwise returns the plain-view result; in particular a 404
on the dl=1 request combined with a valid 200 JSON object on the plain
request yields the plain request's parsed body. -/
theorem fetch_one_auto_fallback :
    (∀ (env : FetchEnv) (d : JVal),
        try_url env true = .ok (Option.some d) →
        fetch_one env .auto = .ok (Option.some d)) ∧
    (∀ env : FetchEnv,
        try_url env true = .ok Option.none →
        fetch_one env .auto = try_url env false) ∧
    (∀ (env : FetchEnv) (ct body ct2 body2 : String) (p : Option JVal)
        (d : JVal),
        env true = .resp 404 ct body p →
        env false = .resp 200 ct2 body2 (Option.some d) →
        is_json_response ct2 body2 = true →
        fetch_one env .auto = .ok (Option.some d)) := by
  refine ⟨?_, ?_, ?_⟩
  · intro env d h; simp [fetch_one, h]
  · intro env h; simp [fetch_one, h]
  · intro env ct body ct2 body2 p d h1 h2 hj
    have ht : try_url env true = .ok Option.none := by
      unfold try_url; rw [h1]; rfl
    have hv : try_url env false = .ok (Option.some d) := by
      unfold try_url
      rw [h2]
      simp [hj, errorDictGuard_eq_false]
    simp [fetch_one, ht, hv]

/-- Fetch environment where the dl=1 request yields 404 and the plain
request yields a valid JSON object. -/
def envAuto404 : FetchEnv := fun dl =>
  if dl then .resp 404 "text/html" "Not Found" Option.none
  else .resp 200 "application/json" "\x7bjson\x7d"
    (Option.some (JVal.obj [("tm", JVal.num 1)]))

/-- C6 witness: the fallback statement evaluated at the concrete 404-then-
200 environment. -/
theorem fetch_one_auto_fallback_witness :
    fetch_one envAuto404 .auto = .ok (Option.some (JVal.obj [("tm", JVal.num 1)])) :=
  fetch_one_auto_fallback.2.2 envAuto404 "text/html" "Not Found"
    "application/json" "\x7bjson\x7d" Option.none (JVal.obj [("tm", JVal.num 1)])
    rfl rfl rfl

/-- C7 counterexample: the Sectioned drivers cited by the claim iterate
range(start, end + 1), which visits nothing at all when end < start,
while iter_ids of the Direct script visits the descending run. -/
theorem sectioned_range_empty_on_descending :
    sectionedIds 10 5 = [] ∧ iter_ids 10 5 = [10, 9, 8, 7, 6, 5] := by
  constructor
  · rfl
  · rfl

/-- C7 amended: iter_ids of the Direct orchestrator visits exactly the
ids between the two bounds inclusively, each once, ascending from start
when end is not below start and descending from start otherwise
(10..5 gives 10,9,8,7,6,5); the Sectioned drivers iterate
range(start, end + 1), which covers the inclusive range ascending and is
empty when end < start. -/
theorem iter_ids_inclusive_ordered :
    (∀ (s e i : Int), i ∈ iter_ids s e ↔ min s e ≤ i ∧ i ≤ max s e) ∧
    (∀ s e : Int, (iter_ids s e).Nodup) ∧
    (∀ s e : Int, s ≤ e →
        List.Chain' (fun a b : Int => b = a + 1) (iter_ids s e) ∧
        (iter_ids s e).head? = some s) ∧
    (∀ s e : Int, e < s →
        List.Chain' (fun a b : Int => b = a - 1) (iter_ids s e) ∧
        (iter_ids s e).head? = some s) ∧
    (∀ (s e i : Int), i ∈ sectionedIds s e ↔ s ≤ i ∧ i ≤ e) ∧
    iter_ids 10 5 = [10, 9, 8, 7, 6, 5] := by
  refine ⟨?_, ?_, ?_, ?_, ?_, rfl⟩
  · intro s e i
    unfold iter_ids
    split
    · rw [mem_rangeAsc]; omega
    · rw [mem_rangeDesc]; omega
  · intro s e
    unfold iter_ids
    split
    · exact nodup_rangeAsc _ _
    · exact nodup_rangeDesc _ _
  · intro s e h
    have he : iter_ids s e = rangeAsc s ((e - s).toNat + 1) := by
      rw [iter_ids, if_pos (by omega)]
    rw [he]
    exact ⟨chain_rangeAsc _ _, rfl⟩
  · intro s e h
    have he : iter_ids s e = rangeDesc s ((s - e).toNat + 1) := by
      rw [iter_ids, if_neg (by omega)]
    rw [he]
    exact ⟨chain_rangeDesc _ _, rfl⟩
  · intro s e i
    unfold sectionedIds pyRange
    rw [mem_rangeAsc]
    omega

/-- The temporary and canonical names always differ: their lengths differ
by six characters whatever the output directory and id are. -/
lemma tmpName_ne_canonName (outdir idStr : String) :
    tmpName outdir idStr ≠ canonName outdir idStr := by
  intro h
  have h2 := congrArg String.length h
  simp only [tmpName, canonName, String.length_append] at h2
  norm_num [show ("/" : String).length = 1 from rfl,
    show (".id_" : String).length = 4 from rfl,
    show (".json.part" : String).length = 10 from rfl,
    show ("id_" : String).length = 3 from rfl,
    show (".json" : String).length = 5 from rfl] at h2
  omega

/-- C3: save_json writes only the temporary sibling path before the
rename, so any crash state (nothing written, or any partial content
sitting at the temporary path) leaves the canonical path exactly as it
was; the completed save puts the full serialization at the canonical
path, removes the temporary file and touches no other path. -/
theorem save_json_atomic :
    ∀ (fs : FS) (outdir idStr ser : String),
      tmpName outdir idStr ≠ canonName outdir idStr ∧
      (∀ frag : String,
        fsWrite fs (tmpName outdir idStr) frag (canonName outdir idStr) =
          fs (canonName outdir idStr)) ∧
      save_json fs outdir idStr ser (canonName outdir idStr) = some ser ∧
      save_json fs outdir idStr ser (tmpName outdir idStr) = none ∧
      (∀ p : String, p ≠ tmpName outdir idStr → p ≠ canonName outdir idStr →
        save_json fs outdir idStr ser p = fs p) := by
  intro fs outdir idStr ser
  have hne := tmpName_ne_canonName outdir idStr
  refine ⟨hne, ?_, ?_, ?_, ?_⟩
  · intro frag
    simp [fsWrite, hne.symm]
  · simp [save_json, fsRename, fsWrite]
  · simp [save_json, fsRename, fsWrite, hne, Ne.symm hne]
  · intro p hp hc
    simp [save_json, fsRename, fsWrite, hp, hc]

/-- C3 witness: the atomicity statement evaluated on a concrete empty
file system, directory and record. -/
theorem save_json_atomic_witness :
    fsWrite (fun _ => Option.none) (tmpName "out" "7") "x"
        (canonName "out" "7") = (fun _ => (Option.none : Option String))
        (canonName "out" "7") ∧
    save_json (fun _ => Option.none) "out" "7" "rec" (canonName "out" "7") =
      some "rec" ∧
    save_json (fun _ => Option.none) "out" "7" "rec" "out/other.json" =
      (fun _ => (Option.none : Option String)) "out/other.json" :=
  ⟨(save_json_atomic (fun _ => Option.none) "out" "7" "rec").2.1 "x",
   (save_json_atomic (fun _ => Option.none) "out" "7" "rec").2.2.1,
   (save_json_atomic (fun _ => Option.none) "out" "7" "rec").2.2.2.2
     "out/other.json" (by decide) (by decide)⟩

/-- Python dict assignment then lookup of the same key gives the
assigned value. -/
lemma lookup_dsetG_same {α : Type} (k : String) (v : α) :
    ∀ d : List (String × α), lookupA (dsetG d k v) k = some v := by
  intro d
  induction d with
  | nil => simp [dsetG, lookupA]
  | cons p t ih =>
    obtain ⟨a, w⟩ := p
    by_cases hk : k = a
    · simp [dsetG, lookupA, hk]
    · simp [dsetG, lookupA, hk, ih]

/-- Python dict assignment leaves the lookup of every other key
unchanged. -/
lemma lookup_dsetG_other {α : Type} (k q : String) (v : α) (hq : q ≠ k) :
    ∀ d : List (String × α), lookupA (dsetG d k v) q = lookupA d q := by
  intro d
  induction d with
  | nil => simp [dsetG, lookupA, hq]
  | cons p t ih =>
    obtain ⟨a, w⟩ := p
    by_cases hk : k = a
    · subst hk
      simp [dsetG, lookupA, hq]
    · by_cases hqa : q = a
      · simp [dsetG, lookupA, hk, hqa]
      · simp [dsetG, lookupA, hk, hqa, ih]

set_option maxHeartbeats 1600000 in
/-- The record of 8.py after the first k extraction steps, in explicit
form: a field assigned by one of those steps carries its environment
value, a later field its initial value. -/
lemma pipe8_eq (i : Int) (env : Env8) : ∀ k : Nat, k ≤ 8 →
    applyPipeline ((steps8 env).take k) (init8 i) =
      [("id", .int i), ("url", .str (textUrl i)),
       ("Language", if 1 ≤ k then optV env.language else .null),
       ("Content", if 2 ≤ k then optV env.content else .null),
       ("Date", if 3 ≤ k then optV env.date else .null),
       ("Provenance", if 4 ≤ k then optV env.provenance else .null),
       ("Material", if 5 ≤ k then optV env.material else .null),
       ("Publications", if 6 ≤ k then .strs env.publications else .strs []),
       ("GreekText", if 7 ≤ k then optV env.greekText else .null),
       ("People", if 8 ≤ k then .strs env.people else .strs []),
       ("Status", .str "OK")] := by
  intro k hk
  interval_cases k <;> rfl

set_option maxHeartbeats 3200000 in
/-- The record of scrapapyrus.py after the first k extraction steps, in
explicit form. -/
lemma pipeV6_eq (i : Int) (env : EnvV6) : ∀ k : Nat, k ≤ 12 →
    applyPipeline ((stepsV6 env).take k) (initV6 i) =
      [("id", .int i), ("url", .str (textUrl i)),
       ("Language", if 1 ≤ k then optV env.language else .null),
       ("Content", if 2 ≤ k then optV env.content else .null),
       ("Date", if 3 ≤ k then optV env.date else .null),
       ("Provenance", if 4 ≤ k then optV env.provenance else .null),
       ("Material", if 5 ≤ k then optV env.material else .null),
       ("Archive", if 8 ≤ k then .strs env.archive else .strs []),
       ("Collections", if 7 ≤ k then .strs env.collections else .strs []),
       ("Publications", if 6 ≤ k then .strs env.publications else .strs []),
       ("GreekText", if 9 ≤ k then optV env.greekText else .null),
       ("People", if 10 ≤ k then .strs env.people else .strs []),
       ("Places", if 11 ≤ k then .strs env.places else .strs []),
       ("Irregularities",
        if 12 ≤ k then .strs env.irregularities else .strs [])] := by
  intro k hk
  interval_cases k <;> rfl

/-- Trivial per-record extraction environment for 8.py. -/
def env8triv : Env8 :=
  ⟨Option.none, Option.none, Option.none, Option.none, Option.none, [],
   Option.none, []⟩

/-- Trivial per-record extraction environment for scrapapyrus.py. -/
def envV6triv : EnvV6 :=
  ⟨Option.none, Option.none, Option.none, Option.none, Option.none, [], [],
   [], Option.none, [], [], []⟩

/-- C4 counterexample: in the scrapapyrus.py variant cited by the claim,
a record whose section sequence raises is emitted without any Status or
Error key at all — the handler only prints — so the claim that the
emitted record has status Error with the message attached is false
there. -/
theorem v6_error_record_has_no_status :
    lookupD (record_complete_v6 1 envV6triv (.errorAt 3 "boom")) "Status" =
      Option.none ∧
    lookupD (record_complete_v6 1 envV6triv (.errorAt 3 "boom")) "Error" =
      Option.none :=
  ⟨rfl, rfl⟩

/-- C4 amended: an exception in a record's section sequence is caught at
the record boundary in both variants and the run emits one record per id
regardless; in the 8.py variant the emitted record carries Status Error
with str(e) under the Error key, while in the scrapapyrus.py variant the
emitted record carries no status or diagnostic key. -/
theorem sectioned_error_caught :
    (∀ (i : Int) (env : Env8) (k : Nat) (msg : String), k ≤ 8 →
        lookupD (record_ultimate i env (.errorAt k msg)) "Status" =
          some (.str "Error") ∧
        lookupD (record_ultimate i env (.errorAt k msg)) "Error" =
          some (.str msg)) ∧
    (∀ (i : Int) (env : EnvV6) (k : Nat) (msg : String), k ≤ 12 →
        lookupD (record_complete_v6 i env (.errorAt k msg)) "Status" =
          Option.none ∧
        lookupD (record_complete_v6 i env (.errorAt k msg)) "Error" =
          Option.none) ∧
    (∀ (s e : Int) (env : Int → Env8) (out : Int → RecOutcome),
        (scrape_trismegistos_ultimate s e env out).length =
          (pyRange s (e + 1)).length ∧
        ∀ i ∈ pyRange s (e + 1),
          (toString i, record_ultimate i (env i) (out i)) ∈
            scrape_trismegistos_ultimate s e env out) ∧
    (∀ (s e : Int) (env : Int → EnvV6) (out : Int → RecOutcome),
        (scrape_trismegistos_complete_v6 s e env out).length =
          (pyRange s (e + 1)).length ∧
        ∀ i ∈ pyRange s (e + 1),
          (toString i, record_complete_v6 i (env i) (out i)) ∈
            scrape_trismegistos_complete_v6 s e env out) := by
  refine ⟨?_, ?_, ?_, ?_⟩
  · intro i env k msg hk
    constructor
    · simp [record_ultimate, lookupD, lookup_dsetG_same, lookup_dsetG_other]
    · simp [record_ultimate, lookupD, lookup_dsetG_same]
  · intro i env k msg hk
    simp only [record_complete_v6]
    rw [pipeV6_eq i env k hk]
    constructor
    · simp [lookupD, lookupA]
    · simp [lookupD, lookupA]
  · intro s e env out
    exact ⟨by simp [scrape_trismegistos_ultimate],
      fun i hi => List.mem_map_of_mem _ hi⟩
  · intro s e env out
    exact ⟨by simp [scrape_trismegistos_complete_v6],
      fun i hi => List.mem_map_of_mem _ hi⟩

/-- C4 witness: the 8.py part of the amended statement at a concrete
record interrupted after two extraction steps. -/
theorem sectioned_error_caught_witness :
    lookupD (record_ultimate 1 env8triv (.errorAt 2 "boom")) "Status" =
      some (.str "Error") ∧
    lookupD (record_ultimate 1 env8triv (.errorAt 2 "boom")) "Error" =
      some (.str "boom") :=
  sectioned_error_caught.1 1 env8triv 2 "boom" (by decide)

/-- C10: when an exception interrupts a record's section sequence after k
completed assignment steps, the emitted record keeps the environment
value for every field assigned by one of those k steps and the initial
null or empty value for every field not yet reached — in both variants
the handler touches nothing besides Status and Error. -/
theorem sectioned_error_partial_fields :
    (∀ (i : Int) (env : Env8) (k : Nat) (msg : String), k ≤ 8 →
        (let d := record_ultimate i env (.errorAt k msg)
         lookupD d "id" = some (.int i) ∧
         lookupD d "url" = some (.str (textUrl i)) ∧
         lookupD d "Language" =
           some (if 1 ≤ k then optV env.language else .null) ∧
         lookupD d "Content" =
           some (if 2 ≤ k then optV env.content else .null) ∧
         lookupD d "Date" = some (if 3 ≤ k then optV env.date else .null) ∧
         lookupD d "Provenance" =
           some (if 4 ≤ k then optV env.provenance else .null) ∧
         lookupD d "Material" =
           some (if 5 ≤ k then optV env.material else .null) ∧
         lookupD d "Publications" =
           some (if 6 ≤ k then .strs env.publications else .strs []) ∧
         lookupD d "GreekText" =
           some (if 7 ≤ k then optV env.greekText else .null) ∧
         lookupD d "People" =
           some (if 8 ≤ k then .strs env.people else .strs []))) ∧
    (∀ (i : Int) (env : EnvV6) (k : Nat) (msg : String), k ≤ 12 →
        (let d := record_complete_v6 i env (.errorAt k msg)
         lookupD d "id" = some (.int i) ∧
         lookupD d "url" = some (.str (textUrl i)) ∧
         lookupD d "Language" =
           some (if 1 ≤ k then optV env.language else .null) ∧
         lookupD d "Content" =
           some (if 2 ≤ k then optV env.content else .null) ∧
         lookupD d "Date" = some (if 3 ≤ k then optV env.date else .null) ∧
         lookupD d "Provenance" =
           some (if 4 ≤ k then optV env.provenance else .null) ∧
         lookupD d "Material" =
           some (if 5 ≤ k then optV env.material else .null) ∧
         lookupD d "Publications" =
           some (if 6 ≤ k then .strs env.publications else .strs []) ∧
         lookupD d "Collections" =
           some (if 7 ≤ k then .strs env.collections else .strs []) ∧
         lookupD d "Archive" =
           some (if 8 ≤ k then .strs env.archive else .strs []) ∧
         lookupD d "GreekText" =
           some (if 9 ≤ k then optV env.greekText else .null) ∧
         lookupD d "People" =
           some (if 10 ≤ k then .strs env.people else .strs []) ∧
         lookupD d "Places" =
           some (if 11 ≤ k then .strs env.places else .strs []) ∧
         lookupD d "Irregularities" =
           some (if 12 ≤ k then .strs env.irregularities else .strs []))) := by
  constructor
  · intro i env k msg hk
    simp only [record_ultimate]
    rw [pipe8_eq i env k hk]
    refine ⟨?_, ?_, ?_, ?_, ?_, ?_, ?_, ?_, ?_, ?_⟩ <;>
      simp [lookupD, lookupA, dsetG]
  · intro i env k msg hk
    simp only [record_complete_v6]
    rw [pipeV6_eq i env k hk]
    refine ⟨?_, ?_, ?_, ?_, ?_, ?_, ?_, ?_, ?_, ?_, ?_, ?_, ?_, ?_⟩ <;>
      simp [lookupD, lookupA]

/-- C10 witness: the frame statement at a concrete record interrupted
after five steps — the Material field (step five) keeps its extracted
value, the GreekText field (step seven, never reached) stays null. -/
theorem sectioned_error_partial_fields_witness :
    lookupD (record_ultimate 1 env8triv (.errorAt 5 "boom")) "Material" =
      some (optV env8triv.material) ∧
    lookupD (record_ultimate 1 env8triv (.errorAt 5 "boom")) "GreekText" =
      some PVal.null := by
  have h := sectioned_error_partial_fields.1 1 env8triv 5 "boom" (by decide)
  exact ⟨h.2.2.2.2.2.2.1, h.2.2.2.2.2.2.2.2.1⟩

/-! ## String lemmas for the extractor proofs -/

lemma isPrefixOf_self (l : List Char) : l.isPrefixOf l = true :=
  List.isPrefixOf_iff_prefix.mpr (List.prefix_refl l)

lemma strHasL_self (l : List Char) : strHasL l l = true := by
  cases l with
  | nil => rfl
  | cons c t => simp [strHasL, isPrefixOf_self]

lemma removeFirstL_append_self (old rest : List Char) (h : old ≠ []) :
    removeFirstL old (old ++ rest) = rest := by
  cases old with
  | nil => exact absurd rfl h
  | cons c t =>
    have hp : (c :: t).isPrefixOf ((c :: t) ++ rest) = true :=
      List.isPrefixOf_iff_prefix.mpr (List.prefix_append _ _)
    show removeFirstAux (c :: t) ((c :: t) ++ rest) = rest
    rw [List.cons_append]
    rw [removeFirstAux]
    rw [← List.cons_append]
    rw [if_pos hp]
    exact List.drop_left _ _

/-- Prepending to a list that keeps its last element under rdropWhile
still keeps it. -/
lemma rdropWhile_cons_of_ne (p : Char → Bool) (c : Char) (l : List Char)
    (hl : l ≠ []) (h : l.rdropWhile p = l) :
    (c :: l).rdropWhile p = c :: l := by
  rw [List.rdropWhile_eq_self_iff] at h ⊢
  intro h2
  rw [List.getLast_cons hl]
  exact h hl

lemma pyStripL_colon_space (vl : List Char) (hne : vl ≠ [])
    (htr : vl.rdropWhile pyIsSpace = vl) :
    pyStripL (':' :: ' ' :: vl) = ':' :: ' ' :: vl := by
  unfold pyStripL
  rw [List.dropWhile_cons, if_neg (by decide)]
  exact rdropWhile_cons_of_ne pyIsSpace ':' (' ' :: vl) (List.cons_ne_nil _ _)
    (rdropWhile_cons_of_ne pyIsSpace ' ' vl hne htr)

lemma stripSepL_sep3 (vl : List Char) :
    stripSepL (' ' :: ':' :: ' ' :: vl) = stripSepL vl := by
  unfold stripSepL
  rw [List.dropWhile_cons, if_pos (by decide), List.dropWhile_cons,
    if_pos (by decide), List.dropWhile_cons, if_pos (by decide)]

/-! ## A metadata block document family for the field-extractor claims -/

/-- The label span of a metadata block. -/
def metaSpan (label : String) : HNode :=
  .elem "span" ["semibold"] Option.none [.text label]

/-- A metadata block whose visible text is the label, a separator and the
value: a .division container with a semibold label span and a text node
holding a colon-space separator followed by the value. -/
def metaBlock (label v : String) : HNode :=
  .elem "div" ["division"] Option.none [metaSpan label, .text (": " ++ v)]

/-- A document holding one metadata block. -/
def metaDoc (label v : String) : HNode :=
  .elem "html" [] Option.none [metaBlock label v]

/-- C8: on a document whose metadata block reads label, separator, value,
extract_field returns the value with the surrounding space, colon and
non-breaking-space separator characters stripped, and returns None — never
the empty string — whenever that stripping leaves nothing. -/
theorem extract_field_strips_label (label v : String)
    (hlab : pyStripL label.data = label.data) (hlabne : label.data ≠ [])
    (hvtr : v.data.rdropWhile pyIsSpace = v.data) (hvne : v.data ≠ []) :
    extract_field (metaDoc label v) label =
      (if stripSep v = "" then Option.none else Option.some (stripSep v)) ∧
    extract_field (metaDoc label v) label ≠ Option.some "" := by
  have hspan : findFirst isSemiboldSpan (metaBlock label v) =
      some (metaSpan label) := rfl
  have hraw : getTextRaw (metaSpan label) = label.data ++ [] := rfl
  have hpred : (match findFirst isSemiboldSpan (metaBlock label v) with
      | some sp => strHasL (getTextRaw sp) label.data
      | none => false) = true := by
    rw [hspan]
    show strHasL (getTextRaw (metaSpan label)) label.data = true
    rw [hraw, List.append_nil]
    exact strHasL_self label.data
  have hsel : selectClasses ["division", "row"] (metaDoc label v) =
      [metaBlock label v] := rfl
  have hfind : (selectClasses ["division", "row"] (metaDoc label v)).find?
      (fun b => match findFirst isSemiboldSpan b with
        | some sp => strHasL (getTextRaw sp) label.data
        | none => false) = some (metaBlock label v) := by
    rw [hsel, List.find?_cons]
    simp only [hpred]
  have hstrip : getTextStripAll (metaSpan label) = label.data := by
    have h1 : rawTexts (metaSpan label) = [label.data] := rfl
    unfold getTextStripAll getTextSepStrip
    rw [h1, List.map_cons, List.map_nil, hlab, List.filter_cons,
      List.isEmpty_eq_false.mpr hlabne]
    rfl
  have hclean : removeIf (fun k => hasClass k "tooltiptext")
      (metaBlock label v) = metaBlock label v := rfl
  have hraws : rawTexts (metaBlock label v) =
      [label.data, ':' :: ' ' :: v.data] := rfl
  have hfull : getTextSepStrip [' '] (metaBlock label v) =
      label.data ++ ' ' :: ':' :: ' ' :: v.data := by
    unfold getTextSepStrip
    rw [hraws, List.map_cons, List.map_cons, List.map_nil, hlab,
      pyStripL_colon_space v.data hvne hvtr, List.filter_cons,
      List.filter_cons, List.isEmpty_eq_false.mpr hlabne]
    simp only [List.isEmpty_cons, Bool.not_false, if_true, List.filter_nil]
    show label.data ++ [' '] ++ (':' :: ' ' :: v.data) =
      label.data ++ ' ' :: ':' :: ' ' :: v.data
    simp
  have hclean2 : get_text_clean (some (metaBlock label v))
      ⟨getTextStripAll (metaSpan label)⟩ =
      (if (stripSepL v.data).isEmpty then Option.none
       else Option.some ⟨stripSepL v.data⟩) := by
    have e1 : get_text_clean (some (metaBlock label v))
        ⟨getTextStripAll (metaSpan label)⟩ =
        (if (stripSepL (removeFirstL (getTextStripAll (metaSpan label))
              (getTextSepStrip [' '] (metaBlock label v)))).isEmpty then
          Option.none
         else Option.some ⟨stripSepL (removeFirstL
            (getTextStripAll (metaSpan label))
            (getTextSepStrip [' '] (metaBlock label v)))⟩) := rfl
    rw [e1, hstrip, hfull, removeFirstL_append_self _ _ hlabne,
      stripSepL_sep3]
  have hval : extract_field (metaDoc label v) label =
      (if (stripSepL v.data).isEmpty then Option.none
       else Option.some ⟨stripSepL v.data⟩) := by
    unfold extract_field
    rw [hfind]
    show (match findFirst isSemiboldSpan (metaBlock label v) with
      | some sp => get_text_clean (some (metaBlock label v))
          ⟨getTextStripAll sp⟩
      | none => Option.none) = _
    rw [hspan]
    show get_text_clean (some (metaBlock label v))
      ⟨getTextStripAll (metaSpan label)⟩ = _
    exact hclean2
  constructor
  · rw [hval]
    by_cases hz : stripSepL v.data = []
    · have hyes : stripSep v = "" := congrArg String.mk hz
      rw [if_pos (by simp [hz]), if_pos hyes]
    · have hni : ¬ stripSep v = "" :=
        fun hcon => hz (congrArg String.data hcon)
      rw [if_neg (by simp [hz]), if_neg hni]
      rfl
  · rw [hval]
    by_cases hz : stripSepL v.data = []
    · rw [if_pos (by simp [hz])]
      exact fun hcon => Option.noConfusion hcon
    · rw [if_neg (by simp [hz])]
      intro hcon
      apply hz
      exact congrArg String.data (Option.some.inj hcon)

/-! ## Lemmas about splitting and joining on the newline character -/

lemma splitOnCharL_ne_nil (c : Char) : ∀ l : List Char,
    splitOnCharL c l ≠ [] := by
  intro l
  induction l with
  | nil => simp [splitOnCharL]
  | cons x xs ih =>
    cases h0 : splitOnCharL c xs with
    | nil => exact absurd h0 ih
    | cons h t =>
      simp only [splitOnCharL, h0]
      split <;> simp

lemma not_mem_of_mem_splitOnCharL (c : Char) : ∀ (l : List Char)
    (p : List Char), p ∈ splitOnCharL c l → c ∉ p := by
  intro l
  induction l with
  | nil =>
    intro p hp
    simp [splitOnCharL] at hp
    simp [hp]
  | cons x xs ih =>
    intro p hp
    cases h0 : splitOnCharL c xs with
    | nil => exact absurd h0 (splitOnCharL_ne_nil c xs)
    | cons h t =>
      simp only [splitOnCharL, h0] at hp
      by_cases hx : x = c
      · rw [if_pos hx] at hp
        rcases List.mem_cons.mp hp with h1 | h1
        · simp [h1]
        · exact ih p (by rw [h0]; exact h1)
      · rw [if_neg hx] at hp
        rcases List.mem_cons.mp hp with h1 | h1
        · subst h1
          intro hcmem
          rcases List.mem_cons.mp hcmem with h2 | h2
          · exact hx h2.symm
          · exact ih h (by rw [h0]; exact List.mem_cons_self h t) h2
        · exact ih p (by rw [h0]; exact List.mem_cons_of_mem h h1)

lemma splitOnCharL_no_sep (c : Char) : ∀ l : List Char, c ∉ l →
    splitOnCharL c l = [l] := by
  intro l
  induction l with
  | nil => intro _; rfl
  | cons x xs ih =>
    intro hc
    have hx : ¬ x = c := fun h => hc (List.mem_cons.mpr (Or.inl h.symm))
    have hxs : c ∉ xs := fun h => hc (List.mem_cons_of_mem x h)
    simp only [splitOnCharL, ih hxs, if_neg hx]

lemma splitOnCharL_append_cons (c : Char) : ∀ (a r : List Char), c ∉ a →
    splitOnCharL c (a ++ c :: r) = a :: splitOnCharL c r := by
  intro a
  induction a with
  | nil =>
    intro r _
    cases h0 : splitOnCharL c r with
    | nil => exact absurd h0 (splitOnCharL_ne_nil c r)
    | cons h t =>
      have e2 : splitOnCharL c ([] ++ c :: r) =
          (match splitOnCharL c r with
           | [] => [[]]
           | hh :: tt => if c = c then [] :: hh :: tt
                         else (c :: hh) :: tt) := rfl
      rw [e2, h0]
      show (if c = c then [] :: h :: t else (c :: h) :: t) = [] :: h :: t
      rw [if_pos rfl]
  | cons x a2 ih =>
    intro r hc
    have hx : ¬ x = c := fun h => hc (List.mem_cons.mpr (Or.inl h.symm))
    have ha : c ∉ a2 := fun h => hc (List.mem_cons_of_mem x h)
    have e2 : splitOnCharL c ((x :: a2) ++ c :: r) =
        (match splitOnCharL c (a2 ++ c :: r) with
         | [] => [[]]
         | hh :: tt => if x = c then [] :: hh :: tt
                       else (x :: hh) :: tt) := rfl
    rw [e2, ih r ha]
    show (if x = c then [] :: a2 :: splitOnCharL c r
          else (x :: a2) :: splitOnCharL c r) =
      (x :: a2) :: splitOnCharL c r
    rw [if_neg hx]

lemma splitOnCharL_joinSepL (c : Char) : ∀ L : List (List Char), L ≠ [] →
    (∀ p ∈ L, c ∉ p) → splitOnCharL c (joinSepL [c] L) = L := by
  intro L
  induction L with
  | nil => intro h _; exact absurd rfl h
  | cons x T ih =>
    intro _ hmem
    cases T with
    | nil =>
      exact splitOnCharL_no_sep c x (hmem x (List.mem_cons_self x []))
    | cons y T2 =>
      have e : joinSepL [c] (x :: y :: T2) =
          x ++ [c] ++ joinSepL [c] (y :: T2) := rfl
      rw [e, List.append_assoc, List.singleton_append,
        splitOnCharL_append_cons c x _ (hmem x (List.mem_cons_self _ _)),
        ih (List.cons_ne_nil _ _)
          (fun p hp => hmem p (List.mem_cons_of_mem x hp))]

/-- Stripping leaves a list whose head no longer satisfies the
predicate, so a second leading strip does nothing. -/
lemma dropWhile_of_rdropWhile_dropWhile (p : Char → Bool) (l : List Char) :
    List.dropWhile p ((l.dropWhile p).rdropWhile p) =
      (l.dropWhile p).rdropWhile p := by
  cases hX : l.dropWhile p with
  | nil => simp
  | cons x xs =>
    have hne : l.dropWhile p ≠ [] := by rw [hX]; simp
    have hpx : ¬ p x = true := by
      have h1 := List.head_dropWhile_not p l hne
      have h3 : (l.dropWhile p).head? = some x := by rw [hX]; rfl
      rw [List.head?_eq_head hne] at h3
      rw [Option.some.inj h3] at h1
      simp [h1]
    obtain ⟨t, ht⟩ := List.rdropWhile_prefix p (x :: xs)
    cases hr : (x :: xs).rdropWhile p with
    | nil => simp
    | cons a r =>
      rw [hr, List.cons_append] at ht
      have hax : a = x := (List.cons.injEq a (r ++ t) x xs ▸ ht).1
      subst hax
      rw [List.dropWhile_cons, if_neg hpx]

lemma pyStripL_idem (l : List Char) : pyStripL (pyStripL l) = pyStripL l := by
  unfold pyStripL
  rw [dropWhile_of_rdropWhile_dropWhile, List.rdropWhile_idempotent]

lemma mem_pyStripL (a : Char) (l : List Char) (h : a ∈ pyStripL l) :
    a ∈ l := by
  unfold pyStripL at h
  have h1 := (List.rdropWhile_prefix pyIsSpace
    (l.dropWhile pyIsSpace)).sublist.subset h
  exact (List.dropWhile_sublist pyIsSpace).subset h1

/-! ## The greek-text document family -/

/-- The words-full-text anchor: visible text, a tooltip span, line-break
markers and a blank tail line. -/
def greekAnchor (a t b : String) : HNode :=
  .elem "div" [] (Option.some "words-full-text")
    [.text a, .elem "span" ["tooltiptext"] Option.none [.text t],
     .elem "br" [] Option.none [], .text b,
     .elem "br" [] Option.none [], .text "   "]

/-- A document holding the anchor. -/
def greekDoc (a t b : String) : HNode :=
  .elem "html" [] Option.none [greekAnchor a t b]

/-- C9: the long-text extractor returns None when the anchor is absent;
when it returns a nonempty string, every line of that string is nonempty
and already stripped; and on an anchor holding text a, a tooltip span, a
line break, text b, a line break and a blank line, the result is the
stripped a and the stripped b joined by one newline — independent of the
tooltip text, with the blank line dropped and the order preserved. -/
theorem extract_greek_text_clean :
    (∀ doc : HNode,
        findFirst (fun k => idOf k == some "words-full-text") doc =
          Option.none →
        extract_greek_text doc = Option.none) ∧
    (∀ (doc : HNode) (s : String), extract_greek_text doc = some s →
        s ≠ "" → ∀ l ∈ splitOnCharL '\n' s.data,
          l ≠ [] ∧ pyStripL l = l) ∧
    (∀ a t b : String, '\n' ∉ a.data → '\n' ∉ b.data →
        pyStripL a.data ≠ [] → pyStripL b.data ≠ [] →
        extract_greek_text (greekDoc a t b) =
          some (pyStrip a ++ "\n" ++ pyStrip b)) := by
  refine ⟨?_, ?_, ?_⟩
  · intro doc hf
    unfold extract_greek_text
    rw [hf]
  · intro doc s hs hsne l hl
    unfold extract_greek_text at hs
    cases hfind : findFirst (fun k => idOf k == some "words-full-text") doc
      with
    | none =>
      rw [hfind] at hs
      exact Option.noConfusion
        (show (Option.none : Option String) = some s from hs)
    | some el =>
      rw [hfind] at hs
      have hs2 : Option.some (String.mk (joinSepL ['\n']
          (((splitOnCharL '\n' (getTextRaw (brToNl (removeIf
              (fun k => isTagOf k "span" && hasClass k "tooltiptext")
              el)))).map pyStripL).filter (fun l => !l.isEmpty)))) =
          some s := hs
      set L := ((splitOnCharL '\n' (getTextRaw (brToNl (removeIf
        (fun k => isTagOf k "span" && hasClass k "tooltiptext")
        el)))).map pyStripL).filter (fun l => !l.isEmpty) with hL
      have hsd : s.data = joinSepL ['\n'] L := by
        rw [← Option.some.inj hs2]
      have hmem : ∀ p ∈ L, p ≠ [] ∧ pyStripL p = p ∧ '\n' ∉ p := by
        intro p hp
        rw [hL, List.mem_filter] at hp
        obtain ⟨hp1, hp2⟩ := hp
        rw [List.mem_map] at hp1
        obtain ⟨q, hq, hqe⟩ := hp1
        subst hqe
        refine ⟨by simpa using hp2, pyStripL_idem q, ?_⟩
        intro hnl
        exact (not_mem_of_mem_splitOnCharL '\n' _ q hq) (mem_pyStripL _ _ hnl)
      have hLne : L ≠ [] := by
        intro h0
        apply hsne
        rw [h0] at hsd
        cases s with
        | mk sd =>
          simp only at hsd
          rw [show joinSepL ['\n'] [] = [] from rfl] at hsd
          exact congrArg String.mk hsd
      have hsplit : splitOnCharL '\n' s.data = L := by
        rw [hsd]
        exact splitOnCharL_joinSepL '\n' L hLne (fun p hp => (hmem p hp).2.2)
      rw [hsplit] at hl
      exact ⟨(hmem l hl).1, (hmem l hl).2.1⟩
  · intro a t b ha hb hA hB
    have e1 : extract_greek_text (greekDoc a t b) =
        some ⟨joinSepL ['\n'] (((splitOnCharL '\n' (getTextRaw (brToNl
          (removeIf (fun k => isTagOf k "span" && hasClass k "tooltiptext")
            (greekAnchor a t b))))).map pyStripL).filter
          (fun l => !l.isEmpty))⟩ := rfl
    have h12 : brToNl (removeIf
        (fun k => isTagOf k "span" && hasClass k "tooltiptext")
        (greekAnchor a t b)) =
        .elem "div" [] (Option.some "words-full-text")
          [.text a, .text "\n", .text b, .text "\n", .text "   "] := rfl
    have h3 : getTextRaw (HNode.elem "div" []
        (Option.some "words-full-text")
        [.text a, .text "\n", .text b, .text "\n", .text "   "]) =
        a.data ++ '\n' :: (b.data ++ '\n' :: [' ', ' ', ' ']) := rfl
    have h4 : splitOnCharL '\n'
        (a.data ++ '\n' :: (b.data ++ '\n' :: [' ', ' ', ' '])) =
        a.data :: b.data :: [[' ', ' ', ' ']] := by
      rw [splitOnCharL_append_cons '\n' a.data _ ha,
        splitOnCharL_append_cons '\n' b.data _ hb,
        splitOnCharL_no_sep '\n' [' ', ' ', ' '] (by decide)]
    rw [e1, h12, h3, h4]
    rw [List.map_cons, List.map_cons, List.map_cons, List.map_nil]
    rw [show pyStripL [' ', ' ', ' '] = [] from by decide]
    rw [List.filter_cons, List.filter_cons, List.filter_cons,
      List.filter_nil, List.isEmpty_eq_false.mpr hA,
      List.isEmpty_eq_false.mpr hB]
    simp only [List.isEmpty_nil, Bool.not_false, Bool.not_true, if_true,
      if_false]
    rfl

/-- C9 witness: the family statement evaluated on a concrete anchor whose
tooltip says TIP; the result drops the tooltip and the blank line. -/
theorem extract_greek_text_clean_witness :
    extract_greek_text (greekDoc "alpha " "TIP" " beta") =
      some ("alpha" ++ "\n" ++ "beta") := by
  have h := extract_greek_text_clean.2.2 "alpha " "TIP" " beta"
    (by decide) (by decide) (by decide) (by decide)
  rw [h]
  decide

/-- C8 witness: the stripping statement evaluated on the block
"Material : Papyrus". -/
theorem extract_field_strips_label_witness :
    extract_field (metaDoc "Material" "Papyrus") "Material" =
      some "Papyrus" := by
  have h := (extract_field_strips_label "Material" "Papyrus" (by decide)
    (by decide) (by decide) (by decide)).1
  rw [h]
  decide

/-- C7 witness: the order statements applied at concrete bounds. -/
theorem iter_ids_inclusive_ordered_witness :
    (List.Chain' (fun a b : Int => b = a + 1) (iter_ids 1 3) ∧
      (iter_ids 1 3).head? = some 1) ∧
    (List.Chain' (fun a b : Int => b = a - 1) (iter_ids 8 5) ∧
      (iter_ids 8 5).head? = some 8) :=
  ⟨iter_ids_inclusive_ordered.2.2.1 1 3 (by decide),
   iter_ids_inclusive_ordered.2.2.2.1 8 5 (by decide)⟩

end Papyri
